import Mathlib

/-!
Verification of the Asset Grouping & Naming Engine of the
cymatics-ad-renamer repository (VANHA Creative Auto-Namer).

The embedding below translates the TypeScript data model
(frontend types file) and the pure functions of the review surface:
the per-asset filename generator and the ad-name preview of
AssetTable (generateNewFileName, generateAdName, duplicateFilenames),
the paste-to-sheet ad-name builder and group sorting of UnifiedPage,
the min-confidence computation of GroupCard, and the export-row shape
of the types file.  JavaScript strings are modelled as Lean `String`,
JS numbers for ad numbers, sizes and indices as `Nat`, and confidence
scores as `ℚ`.  An optional (possibly `undefined`) field is an
`Option`; JS string truthiness is the non-empty test.
-/

/-! ### Data model (frontend types file) -/

/-- AssetType of the types file: the string union IMG | VID. -/
inductive AssetType
  | IMG
  | VID
  deriving DecidableEq

/-- The literal string carried by an AssetType value. -/
def assetTypeToken : AssetType → String
  | .IMG => "IMG"
  | .VID => "VID"

/-- Placement of the types file: the string union story | feed | unknown.
Note the declared union has exactly these three members; there is no
square member. -/
inductive Placement
  | story
  | feed
  | unknown
  deriving DecidableEq, Fintype

/-- The literal string carried by a Placement value. -/
def placementToken : Placement → String
  | .story => "story"
  | .feed => "feed"
  | .unknown => "unknown"

/-- AssetMetadata of the types file. -/
structure AssetMetadata where
  width : Nat
  height : Nat
  duration : Option ℚ
  aspect_ratio : ℚ
  deriving DecidableEq

/-- Asset of the types file. -/
structure Asset where
  id : String
  name : String
  path : String
  asset_type : AssetType
  size_bytes : Option Nat
  deriving DecidableEq

/-- ProcessedAsset of the types file.  custom_filename is the optional
user-supplied override; `none` models an absent (undefined) field. -/
structure ProcessedAsset where
  asset : Asset
  metadata : AssetMetadata
  placement : Placement
  ocr_text : String
  fingerprint : String
  frame_paths : List String
  thumbnail_url : Option String
  headline : String
  description : String
  custom_filename : Option String
  deriving DecidableEq

/-- GroupType of the types file: standard | carousel | single. -/
inductive GroupType
  | standard
  | carousel
  | single
  deriving DecidableEq

/-- The literal string carried by a GroupType value. -/
def groupTypeToken : GroupType → String
  | .standard => "standard"
  | .carousel => "carousel"
  | .single => "single"

/-- Per-group confidence bundle.  GroupCard reads the four fields
group, product, angle and offer of group.confidence, and the group
update path of the API client includes angle among the editable
fields, so the live bundle carries all four scores.  (The ExportRow
declaration of the types file, embedded below, projects only three of
them; that mismatch is what claim C8 is about.) -/
structure ConfidenceScores where
  group : ℚ
  product : ℚ
  angle : ℚ
  offer : ℚ
  deriving DecidableEq

/-- AdGroup of the types file, together with the campaign and angle
fields that AssetTable, GroupCard and the API client read and write on
a group. -/
structure AdGroup where
  id : String
  group_type : GroupType
  assets : List ProcessedAsset
  ad_number : Nat
  campaign : String
  product : String
  angle : String
  hook : String
  creator : String
  offer : Bool
  date : String
  confidence : ConfidenceScores
  format_token : String
  primary_text : String
  headline : String
  description : String
  cta : String
  url : String
  comment_media_buyer : String
  comment_client : String
  deriving DecidableEq

/-- GroupedAssets of the types file: the top-level snapshot. -/
structure GroupedAssets where
  groups : List AdGroup
  ungrouped : List ProcessedAsset
  deriving DecidableEq

/-! ### String helpers used by the Namer code -/

/-- JS String(n).padStart(w, the zero character) for a natural n:
left-pad the decimal representation with zeros up to width w (longer
representations are returned unchanged). -/
def zeroPad (w : Nat) (n : Nat) : String :=
  let s := toString n
  String.mk (List.replicate (w - s.length) '0' ++ s.data)

/-- The characters after the last dot of the list (the whole list when
it contains no dot): this is what name.split with a dot separator
followed by pop yields on the name's characters. -/
def afterLastDot (cs : List Char) : List Char :=
  (cs.reverse.takeWhile (fun c => c ≠ '.')).reverse

/-- The extension computation of generateNewFileName:
name.split on a dot, pop, with a falsy (empty) result replaced by
"jpg".  A name without a dot yields the whole name (split returns the
one-element array holding the name, and pop takes it), so the "jpg"
default only applies when the popped segment is the empty string. -/
def extOf (name : String) : String :=
  let tail := afterLastDot name.data
  if tail.isEmpty then "jpg" else String.mk tail

/-- JS truthiness of an optional string field: present and non-empty. -/
def strOptTruthy : Option String → Bool
  | none => false
  | some s => s ≠ ""

/-- One step of the regex replace that rewrites every run of two or
more underscores to a single underscore: drop an underscore that is
immediately followed by another one. -/
def squeezeUnderscores : List Char → List Char
  | [] => []
  | [c] => [c]
  | c :: c2 :: rest =>
    if c = '_' ∧ c2 = '_' then squeezeUnderscores (c2 :: rest)
    else c :: squeezeUnderscores (c2 :: rest)

/-- The replace of generateAdName: collapse every run of two or more
underscores down to one. -/
def collapseUnderscoreRuns (s : String) : String :=
  String.mk (squeezeUnderscores s.data)

/-! ### Namer (AssetTable component) -/

/-- generateNewFileName of AssetTable: the custom filename when the
field is truthy, otherwise the carousel schema for carousel groups and
the standard/single schema for the rest. -/
def generateNewFileName (group : AdGroup) (asset : ProcessedAsset) (assetIndex : Nat) : String :=
  if strOptTruthy asset.custom_filename then asset.custom_filename.getD "" else
  let ext := extOf asset.asset.name
  if group.group_type = GroupType.carousel then
    zeroPad 4 group.ad_number ++ "_CAR_Card" ++ zeroPad 2 (assetIndex + 1) ++ "." ++ ext
  else
    zeroPad 3 group.ad_number ++ "_" ++ assetTypeToken asset.asset.asset_type ++ "_" ++
      placementToken asset.placement ++ "." ++ ext

/-- generateAdName of AssetTable: push the present fields in the fixed
order, join with underscores, then collapse accidental double
underscores. -/
def generateAdName (group : AdGroup) : String :=
  let adNum := zeroPad 3 group.ad_number
  let parts := [adNum]
  let parts := if group.campaign ≠ "" then parts ++ [group.campaign] else parts
  let parts := if group.product ≠ "" then parts ++ [group.product] else parts
  let parts := parts ++ [group.format_token]
  let parts := if group.angle ≠ "" then parts ++ [group.angle] else parts
  let parts := if group.hook ≠ "" then parts ++ [group.hook] else parts
  let parts := if group.creator ≠ "" then parts ++ [group.creator] else parts
  let parts := if group.offer then parts ++ ["Offer"] else parts
  let parts := if group.date ≠ "" then parts ++ [group.date] else parts
  collapseUnderscoreRuns (String.intercalate "_" parts)

/-- The ad-name string built by handlePasteToSheet of UnifiedPage when
pasting ad names to the Google Sheet: like the preview but without the
campaign and angle fields, and with the literal Colab as the offer
marker. -/
def pasteAdName (group : AdGroup) : String :=
  let adNum := zeroPad 3 group.ad_number
  let parts := [adNum]
  let parts := if group.product ≠ "" then parts ++ [group.product] else parts
  let parts := parts ++ [group.format_token]
  let parts := if group.hook ≠ "" then parts ++ [group.hook] else parts
  let parts := if group.creator ≠ "" then parts ++ [group.creator] else parts
  let parts := if group.offer then parts ++ ["Colab"] else parts
  let parts := if group.date ≠ "" then parts ++ [group.date] else parts
  collapseUnderscoreRuns (String.intercalate "_" parts)

/-- The ad-name preview as the specification words it: the underscore
join of ad number, campaign, product, format token, angle, hook,
creator, the literal Offer marker when offer is set, and date, with
every empty optional field skipped, and runs of two or more join
separators collapsed to one. -/
def adNamePreviewSpec (group : AdGroup) : String :=
  let opt (s : String) : List String := if s = "" then [] else [s]
  let fields :=
    [zeroPad 3 group.ad_number] ++ opt group.campaign ++ opt group.product ++
      [group.format_token] ++ opt group.angle ++ opt group.hook ++ opt group.creator ++
      (if group.offer then ["Offer"] else []) ++ opt group.date
  collapseUnderscoreRuns (String.intercalate "_" fields)

/-! ### Sample values used by concrete witnesses and counterexamples -/

/-- Metadata placeholder for sample assets. -/
def mkMeta (w h : Nat) : AssetMetadata :=
  { width := w, height := h, duration := none, aspect_ratio := 1 }

/-- Sample Asset builder. -/
def mkAsset (id name : String) (t : AssetType) : Asset :=
  { id := id, name := name, path := name, asset_type := t, size_bytes := none }

/-- Sample ProcessedAsset builder. -/
def mkProcessed (a : Asset) (p : Placement) (cf : Option String) : ProcessedAsset :=
  { asset := a, metadata := mkMeta 1080 1920, placement := p, ocr_text := "",
    fingerprint := "", frame_paths := [], thumbnail_url := none, headline := "",
    description := "", custom_filename := cf }

/-- Sample AdGroup builder: empty editable fields, IMG format, full
confidence. -/
def mkGroup (id : String) (gt : GroupType) (assets : List ProcessedAsset) (n : Nat) : AdGroup :=
  { id := id, group_type := gt, assets := assets, ad_number := n, campaign := "",
    product := "", angle := "", hook := "", creator := "", offer := false, date := "",
    confidence := { group := 1, product := 1, angle := 1, offer := 1 },
    format_token := "IMG", primary_text := "", headline := "", description := "",
    cta := "", url := "", comment_media_buyer := "", comment_client := "" }

/-! ### C1: the derived per-asset filename schema -/

/-- C1: for every ad group, asset and 0-based index with no custom
filename set, the generated filename is the 4-digit ad number, CAR
card marker and 2-digit 1-based position with the extension for
carousel groups, and the 3-digit ad number, asset type token and
placement token with the extension for standard/single groups. -/
theorem c1_filename_schema (group : AdGroup) (asset : ProcessedAsset) (i : Nat)
    (h : asset.custom_filename = none) :
    generateNewFileName group asset i =
      if group.group_type = GroupType.carousel then
        zeroPad 4 group.ad_number ++ "_CAR_Card" ++ zeroPad 2 (i + 1) ++ "." ++
          extOf asset.asset.name
      else
        zeroPad 3 group.ad_number ++ "_" ++ assetTypeToken asset.asset.asset_type ++ "_" ++
          placementToken asset.placement ++ "." ++ extOf asset.asset.name := by
  simp [generateNewFileName, strOptTruthy, h]

/-- Carousel sample card for the C1 witness. -/
def c1Asset : ProcessedAsset := mkProcessed (mkAsset "a1" "card.png" .IMG) .unknown none

/-- Carousel sample group for the C1 witness. -/
def c1Group : AdGroup := mkGroup "g1" .carousel [c1Asset] 2

/-- C1 witness: the schema theorem evaluated on a concrete carousel
card with ad number 2 at index 0. -/
theorem c1_filename_schema_check :
    c1Asset.custom_filename = none ∧
      generateNewFileName c1Group c1Asset 0 = "0002_CAR_Card01.png" := by
  refine ⟨rfl, ?_⟩
  rw [c1_filename_schema c1Group c1Asset 0 rfl]
  decide

/-! ### C2: the custom-filename override -/

/-- Sample asset whose custom filename is set to the empty string. -/
def c2Asset : ProcessedAsset := mkProcessed (mkAsset "a2" "pic.png" .IMG) .story (some "")

/-- Sample group around c2Asset. -/
def c2Group : AdGroup := mkGroup "g2" .standard [c2Asset] 1

/-- C2 counterexample: an asset whose custom_filename has been set to
the empty string does not get the empty string back: the code tests JS
truthiness, so the derived name is produced instead and the claim as
stated fails at this input. -/
theorem c2_custom_override_counterexample :
    c2Asset.custom_filename = some "" ∧ generateNewFileName c2Group c2Asset 0 ≠ "" := by
  exact ⟨rfl, by decide⟩

/-- C2 amended: a custom_filename set to a non-empty string s is
returned verbatim, with no further formatting and no extension
appended, for every group and index. -/
theorem c2_custom_override (group : AdGroup) (asset : ProcessedAsset) (i : Nat) (s : String)
    (h : asset.custom_filename = some s) (hs : s ≠ "") :
    generateNewFileName group asset i = s := by
  simp [generateNewFileName, strOptTruthy, h, hs]

/-- Sample asset with a non-empty custom filename for the C2 witness. -/
def c2KeepAsset : ProcessedAsset :=
  mkProcessed (mkAsset "a2k" "pic.png" .IMG) .story (some "Keep.png")

/-- C2 witness: the amended override theorem evaluated on a concrete
asset whose custom filename is Keep.png. -/
theorem c2_custom_override_check :
    c2KeepAsset.custom_filename = some "Keep.png" ∧ "Keep.png" ≠ "" ∧
      generateNewFileName c2Group c2KeepAsset 3 = "Keep.png" := by
  exact ⟨rfl, by decide, c2_custom_override c2Group c2KeepAsset 3 "Keep.png" rfl (by decide)⟩

/-! ### C5: the extension default -/

/-- Sample dot-free asset for the C5 failing input. -/
def c5Asset : ProcessedAsset := mkProcessed (mkAsset "a5" "photo" .IMG) .story none

/-- Sample group around c5Asset. -/
def c5Group : AdGroup := mkGroup "g5" .standard [c5Asset] 1

/-- C5: evaluating the code at the failing input.  For a source asset
name with no dot the code uses the whole name as the extension, not
the documented "jpg" default: split on a dot returns the one-element
array holding the name, pop takes it, and the "jpg" fallback is only
reached when that segment is empty.  The asset named photo therefore
gets the filename 001_IMG_story.photo. -/
theorem c5_extension_dotless_eval :
    extOf "photo" = "photo" ∧ generateNewFileName c5Group c5Asset 0 = "001_IMG_story.photo" := by
  exact ⟨by decide, by decide⟩

/-! ### C6: the ad-name preview -/

/-- Pushing a part under a condition is appending the conditional
singleton. -/
theorem push_ite (c : Prop) [Decidable c] (parts : List String) (x : String) :
    (if c then parts ++ [x] else parts) = parts ++ (if c then [x] else []) := by
  by_cases h : c <;> simp [h]

/-- Pushing a non-empty string is appending the skip-empty singleton. -/
theorem opt_ite (s : String) (parts : List String) :
    (if s ≠ "" then parts ++ [s] else parts) = parts ++ (if s = "" then [] else [s]) := by
  by_cases h : s = "" <;> simp [h]

set_option maxHeartbeats 4000000 in
/-- C6: the ad-name preview equals the underscore join, in the fixed
order, of ad number, campaign, product, format token, angle, hook,
creator, the Offer marker when offer is true, and date, skipping every
empty optional field, with remaining runs of two or more underscores
collapsed to one. -/
theorem c6_adname_preview (group : AdGroup) : generateAdName group = adNamePreviewSpec group := by
  simp only [generateAdName, adNamePreviewSpec, ne_eq, ite_not]
  refine congrArg collapseUnderscoreRuns (congrArg (String.intercalate "_") ?_)
  split_ifs <;> rfl

/-! ### C10: paste-to-sheet versus the displayed preview -/

/-- Sample group with a campaign and the offer flag for the C10
counterexample. -/
def c10Group : AdGroup :=
  { mkGroup "g10" .standard [] 1 with campaign := "Summer", offer := true }

set_option maxHeartbeats 1000000 in
/-- C10 counterexample: on a group with campaign Summer and offer set,
the pasted ad-name drops the campaign and writes Colab where the
preview writes Offer, so the two strings differ. -/
theorem c10_paste_counterexample : pasteAdName c10Group ≠ generateAdName c10Group := by
  decide

/-- C10 amended: the pasted ad-name omits the campaign and angle
fields and uses the Colab offer marker; it equals the displayed
preview exactly on groups whose campaign and angle are empty and whose
offer flag is off. -/
theorem c10_paste_matches_preview (group : AdGroup) (hc : group.campaign = "")
    (ha : group.angle = "") (ho : group.offer = false) :
    pasteAdName group = generateAdName group := by
  simp [pasteAdName, generateAdName, hc, ha, ho]

/-- Sample group with empty campaign and angle and offer off for the
C10 witness. -/
def c10PlainGroup : AdGroup :=
  { mkGroup "g10p" .standard [] 7 with product := "Widget", hook := "Hook1", date := "2025.01.01" }

/-- C10 witness: the amended agreement theorem evaluated on a concrete
group with empty campaign, empty angle and offer off. -/
theorem c10_paste_matches_preview_check :
    c10PlainGroup.campaign = "" ∧ c10PlainGroup.angle = "" ∧ c10PlainGroup.offer = false ∧
      pasteAdName c10PlainGroup = generateAdName c10PlainGroup := by
  exact ⟨rfl, rfl, rfl, c10_paste_matches_preview c10PlainGroup rfl rfl rfl⟩

/-! ### C3: the duplicate-filename set -/

/-- The filename of every (group, asset-index) pair of the snapshot,
in the iteration order of duplicateFilenames: for each group in list
order, the generated filename of assets[i] at index i. -/
def pairFilenames (groups : List AdGroup) : List String :=
  groups.flatMap (fun g => g.assets.enum.map (fun p => generateNewFileName g p.2 p.1))

/-- duplicateFilenames of AssetTable: count every generated filename
over all (group, asset-index) pairs of the groups, and return those
occurring more than once.  The JS Set is modelled as a duplicate-free
list; only membership matters. -/
def duplicateFilenames (groups : List AdGroup) : List String :=
  ((pairFilenames groups).filter (fun f => 1 < (pairFilenames groups).count f)).dedup

/-- A value occurs at least twice in a list exactly when two distinct
positions of the list hold it. -/
theorem two_le_count_iff_distinct_positions {α : Type} [DecidableEq α] (l : List α) (a : α) :
    2 ≤ l.count a ↔ ∃ i j : Fin l.length, i ≠ j ∧ l.get i = a ∧ l.get j = a := by
  constructor
  · induction l with
    | nil => intro h; simp [List.count_nil] at h
    | cons x xs ih =>
      intro h
      by_cases hx : x = a
      · subst hx
        have h1 : 0 < xs.count x := by
          have := List.count_cons_self x xs
          omega
        obtain ⟨j, hj⟩ := List.mem_iff_get.mp (List.count_pos_iff.mp h1)
        refine ⟨⟨0, by simp⟩, ⟨j.1 + 1, by simp [Nat.succ_lt_succ j.2]⟩, ?_, rfl, ?_⟩
        · intro heq
          have := congrArg Fin.val heq
          simp at this
        · simpa using hj
      · have h2 : 2 ≤ xs.count a := by
          rwa [List.count_cons_of_ne (Ne.symm hx)] at h
        obtain ⟨i, j, hij, hi, hj⟩ := ih h2
        refine ⟨⟨i.1 + 1, by simp [Nat.succ_lt_succ i.2]⟩, ⟨j.1 + 1, by simp [Nat.succ_lt_succ j.2]⟩,
          ?_, by simpa using hi, by simpa using hj⟩
        intro hfeq
        have hv := congrArg Fin.val hfeq
        simp at hv
        exact hij (Fin.ext hv)
  · rintro ⟨i, j, hij, hi, hj⟩
    have key : ∀ pi pj : Nat, ∀ hpi : pi < l.length, ∀ hpj : pj < l.length, pi < pj →
        l[pi] = a → l[pj] = a → 2 ≤ l.count a := by
      intro pi pj hpi hpj hlt hgi hgj
      have hmem1 : a ∈ l.take pj := by
        have hlen : pi < (l.take pj).length := by
          simp only [List.length_take]
          omega
        have hv : (l.take pj)[pi] = a := by simpa using hgi
        exact hv ▸ List.getElem_mem hlen
      have hmem2 : a ∈ l.drop pj := by
        have hlen : 0 < (l.drop pj).length := by
          simp only [List.length_drop]
          omega
        have hv : (l.drop pj)[0] = a := by
          rw [List.getElem_drop]
          simpa using hgj
        exact hv ▸ List.getElem_mem hlen
      have c1 : 0 < (l.take pj).count a := List.count_pos_iff.mpr hmem1
      have c2 : 0 < (l.drop pj).count a := List.count_pos_iff.mpr hmem2
      have hc := List.count_append a (l.take pj) (l.drop pj)
      rw [List.take_append_drop] at hc
      omega
    rcases Nat.lt_or_ge i.1 j.1 with hlt | hge
    · exact key i.1 j.1 i.2 j.2 hlt (by simpa using hi) (by simpa using hj)
    · rcases Nat.lt_or_ge j.1 i.1 with hlt2 | hge2
      · exact key j.1 i.1 j.2 i.2 hlt2 (by simpa using hj) (by simpa using hi)
      · exact absurd (Fin.ext (Nat.le_antisymm hge2 hge)) hij

/-- C3: a filename is in the duplicate set exactly when it is produced
by at least two distinct (group, asset-index) pairs: the positions of
pairFilenames enumerate exactly those pairs, in iteration order.
Changing either colliding group so the outputs differ leaves at most
one position with that filename, which removes it from the set. -/
theorem c3_duplicate_set_iff (groups : List AdGroup) (f : String) :
    f ∈ duplicateFilenames groups ↔
      ∃ i j : Fin (pairFilenames groups).length, i ≠ j ∧
        (pairFilenames groups).get i = f ∧ (pairFilenames groups).get j = f := by
  rw [duplicateFilenames, List.mem_dedup, List.mem_filter,
    ← two_le_count_iff_distinct_positions (pairFilenames groups) f]
  constructor
  · rintro ⟨hmem, hcnt⟩
    have : 1 < (pairFilenames groups).count f := by simpa using hcnt
    omega
  · intro h2
    refine ⟨List.count_pos_iff.mp (by omega), by simpa using Nat.lt_of_lt_of_le (by omega : 1 < 2) h2⟩

/-! ### C9: the placement value space -/

/-- C9 counterexample: square is not the token of any Placement value;
the declared union in the types file holds only story, feed and
unknown, so square is not a possible inferred placement. -/
theorem c9_placement_counterexample :
    "square" ∉ (Finset.univ : Finset Placement).image placementToken := by decide

/-- C9 amended: the inferred placement of every processed asset is one
of exactly the three values story, feed and unknown, and each of the
three is a possible placement. -/
theorem c9_placement_values :
    (∀ pa : ProcessedAsset, pa.placement ∈ [Placement.story, Placement.feed, Placement.unknown]) ∧
      [Placement.story, Placement.feed, Placement.unknown].map placementToken =
        ["story", "feed", "unknown"] := by
  constructor
  · intro pa
    cases h : pa.placement <;> simp
  · rfl

/-! ### C4: bulk apply -/

/-- The string-valued editable group fields the bulk tooling can
target (the API client sends the field name and a string value). -/
inductive MutField
  | campaign
  | product
  | angle
  | hook
  | creator
  | date
  deriving DecidableEq

/-- Setting one editable field of a group to a string value. -/
def setField (g : AdGroup) : MutField → String → AdGroup
  | .campaign, v => { g with campaign := v }
  | .product, v => { g with product := v }
  | .angle, v => { g with angle := v }
  | .hook, v => { g with hook := v }
  | .creator, v => { g with creator := v }
  | .date, v => { g with date := v }

/-- Reading one editable field of a group. -/
def getField (g : AdGroup) : MutField → String
  | .campaign => g.campaign
  | .product => g.product
  | .angle => g.angle
  | .hook => g.hook
  | .creator => g.creator
  | .date => g.date

/-- Whether a group id occurs in the snapshot. -/
def idPresent (s : GroupedAssets) (id : String) : Bool :=
  s.groups.any (fun g => g.id = id)

/-- Failure values of the bulk operations. -/
inductive BulkError
  | notFound (ids : List String)
  deriving DecidableEq

/-- Modelled from the spec: the backend bulk-apply endpoint behind
api.bulkApply (the Python service the client posts group_ids, field
and value to) is not under src, only its API client and callers are.
Per the specification it sets the field to the value for every group
in group_ids, and fails with NotFound listing the absent ids, applying
to none of the groups, when any id is missing from the snapshot. -/
def bulkApply (s : GroupedAssets) (ids : List String) (f : MutField) (v : String) :
    Except BulkError GroupedAssets :=
  let missing := ids.filter (fun id => !(idPresent s id))
  if missing.isEmpty then
    Except.ok { s with groups := s.groups.map (fun g => if ids.contains g.id then setField g f v else g) }
  else
    Except.error (BulkError.notFound missing)

/-- Setting a field then reading it yields the value set. -/
theorem getField_setField (g : AdGroup) (f : MutField) (v : String) :
    getField (setField g f v) f = v := by
  cases f <;> rfl

/-- C4: bulkApply is all-or-nothing.  When every requested id is
present it succeeds with a snapshot of the same shape in which every
group whose id was requested carries the new value and every other
group is untouched; when any requested id is absent it fails with
NotFound listing exactly the missing ids and produces no snapshot at
all, so every group's fields stay as they were in the caller's
snapshot. -/
theorem c4_bulkApply_atomic (s : GroupedAssets) (ids : List String) (f : MutField) (v : String) :
    ((∀ id ∈ ids, idPresent s id = true) →
      ∃ t, bulkApply s ids f v = Except.ok t ∧
        t.groups.length = s.groups.length ∧
        (∀ g ∈ t.groups, ids.contains g.id = true → getField g f = v) ∧
        (∀ g ∈ t.groups, ids.contains g.id = false → g ∈ s.groups)) ∧
    ((∃ id ∈ ids, idPresent s id = false) →
      ∃ missing, missing ≠ [] ∧
        (∀ id ∈ missing, id ∈ ids ∧ idPresent s id = false) ∧
        bulkApply s ids f v = Except.error (BulkError.notFound missing)) := by
  constructor
  · intro hall
    have hmiss : (ids.filter (fun id => !(idPresent s id))) = [] := by
      rw [List.filter_eq_nil_iff]
      intro id hid
      simp [hall id hid]
    refine ⟨{ s with groups := s.groups.map (fun g => if ids.contains g.id then setField g f v else g) },
      ?_, by simp, ?_, ?_⟩
    · simp only [bulkApply, hmiss]
      rfl
    · intro g hg hgid
      obtain ⟨g0, hg0, hmap⟩ := List.mem_map.mp hg
      by_cases hc : ids.contains g0.id
      · rw [if_pos hc] at hmap
        rw [← hmap]
        exact getField_setField g0 f v
      · rw [if_neg hc] at hmap
        rw [← hmap] at hgid
        exact absurd hgid (by simpa using hc)
    · intro g hg hgid
      obtain ⟨g0, hg0, hmap⟩ := List.mem_map.mp hg
      by_cases hc : ids.contains g0.id
      · rw [if_pos hc] at hmap
        have : ids.contains g.id = true := by
          rw [← hmap]
          cases f <;> simpa using hc
        rw [this] at hgid
        cases hgid
      · rw [if_neg hc] at hmap
        rw [← hmap]
        exact hg0
  · rintro ⟨id0, hid0, habs⟩
    have hmem : id0 ∈ ids.filter (fun id => !(idPresent s id)) :=
      List.mem_filter.mpr ⟨hid0, by simp [habs]⟩
    have hne : (ids.filter (fun id => !(idPresent s id))) ≠ [] :=
      List.ne_nil_of_mem hmem
    refine ⟨ids.filter (fun id => !(idPresent s id)), hne, ?_, ?_⟩
    · intro id hid
      have h := List.mem_filter.mp hid
      exact ⟨h.1, by simpa using h.2⟩
    · simp only [bulkApply]
      rw [if_neg (by simpa using hne)]

/-! ### C8: the flattened export view -/

/-- ExportRow of the types file: the columns of one row of the
flattened export view.  The declared row carries three confidence
columns (group, product, offer); there is no angle column. -/
structure ExportRow where
  file_id : String
  old_name : String
  new_name : String
  group_id : String
  group_type : String
  placement_inferred : String
  confidence_group : ℚ
  confidence_product : ℚ
  confidence_offer : ℚ
  deriving DecidableEq

/-- The row of one (group, asset-index) pair: file identifier, old
name, new name as computed by the Namer, group id, group type,
inferred placement, and the confidence columns of the row type. -/
def exportRowOf (g : AdGroup) (i : Nat) (pa : ProcessedAsset) : ExportRow :=
  { file_id := pa.asset.id
    old_name := pa.asset.name
    new_name := generateNewFileName g pa i
    group_id := g.id
    group_type := groupTypeToken g.group_type
    placement_inferred := placementToken pa.placement
    confidence_group := g.confidence.group
    confidence_product := g.confidence.product
    confidence_offer := g.confidence.offer }

/-- Modelled from the spec: the backend exporter that flattens the
current snapshot into rows is not under src (only the ExportRow
declaration and the preview/export API consumers are).  Per the
specification the view is a pure projection of the snapshot with one
row per asset of every group, each row built by the Namer and the
row-type columns. -/
def buildExportRows (s : GroupedAssets) : List ExportRow :=
  s.groups.flatMap (fun g => g.assets.enum.map (fun p => exportRowOf g p.1 p.2))

/-- Asset shared by the two C8 snapshots. -/
def c8Asset : ProcessedAsset := mkProcessed (mkAsset "a8" "a.png" .IMG) .story none

/-- C8 snapshot whose only group has angle confidence 0. -/
def c8SnapLow : GroupedAssets :=
  { groups := [{ mkGroup "g8" .single [c8Asset] 1 with
      confidence := { group := 1, product := 1, angle := 0, offer := 1 } }],
    ungrouped := [] }

/-- C8 snapshot whose only group has angle confidence 1. -/
def c8SnapHigh : GroupedAssets :=
  { groups := [{ mkGroup "g8" .single [c8Asset] 1 with
      confidence := { group := 1, product := 1, angle := 1, offer := 1 } }],
    ungrouped := [] }

/-- C8 counterexample: two snapshots that differ only in a group's
angle confidence produce identical export rows, so the flattened view
does not carry the claimed angle confidence column (the ExportRow type
has no slot for it). -/
theorem c8_export_counterexample :
    buildExportRows c8SnapLow = buildExportRows c8SnapHigh ∧
      c8SnapLow.groups.map (fun g => g.confidence.angle) ≠
        c8SnapHigh.groups.map (fun g => g.confidence.angle) := by
  exact ⟨rfl, by decide⟩

/-- C8 amended: the flattened export view is a pure projection of the
snapshot with exactly one row per asset of every group, whose columns
are the file identifier, old name, new name as computed by the Namer,
group id, group type, inferred placement, and the three confidence
scores group, product and offer. -/
theorem c8_export_projection (s : GroupedAssets) :
    (buildExportRows s).length = (s.groups.map (fun g => g.assets.length)).sum ∧
    ∀ r ∈ buildExportRows s, ∃ g ∈ s.groups, ∃ i : Fin g.assets.length,
      r = exportRowOf g i.1 (g.assets.get i) := by
  constructor
  · rw [buildExportRows, List.flatMap_def, List.length_flatten, List.map_map]
    congr 1
    apply List.map_congr_left
    intro g hg
    simp [List.enum_length]
  · intro r hr
    obtain ⟨g, hg, hmem⟩ := List.mem_flatMap.mp hr
    obtain ⟨p, hp, hrow⟩ := List.mem_map.mp hmem
    obtain ⟨k, hk⟩ := List.mem_iff_get.mp hp
    have hge := List.get_enum g.assets k
    refine ⟨g, hg, k.cast (List.enum_length), ?_⟩
    rw [← hrow, ← hk, hge]
    rfl

/-! ### C7: the order of the review surface -/

/-- getFirstFilename of UnifiedPage: the first asset's original
filename, the empty string for a group with no assets. -/
def firstFilename (g : AdGroup) : String :=
  match g.assets with
  | [] => ""
  | a :: _ => a.asset.name

/-- The digit class of the leading-number regex of extractNumber. -/
def isDigitChar (c : Char) : Bool := '0' ≤ c ∧ c ≤ '9'

/-- The leading decimal digits of a filename: what the anchored
digit-run regex of extractNumber captures. -/
def leadingDigits (s : String) : List Char :=
  s.data.takeWhile isDigitChar

/-- parseInt on a run of decimal digits. -/
def digitsToNat (ds : List Char) : Nat :=
  ds.foldl (fun acc c => acc * 10 + (c.toNat - 48)) 0

/-- extractNumber of UnifiedPage: the parsed leading number of the
filename, none standing for the Infinity sentinel returned when the
name has no leading digit. -/
def extractNumber (s : String) : Option Nat :=
  let ds := leadingDigits s
  if ds.isEmpty then none else some (digitsToNat ds)

/-- Lexicographic less-or-equal on character lists, by character code.
This models a non-positive localeCompare result; localeCompare itself
is locale dependent, and the embedding fixes the character-code order. -/
def lexLe : List Char → List Char → Bool
  | [], _ => true
  | _ :: _, [] => false
  | x :: xs, y :: ys => if x < y then true else if y < x then false else lexLe xs ys

/-- The sort comparator of sortedGroups as a Boolean ordering: a
precedes-or-ties b when the comparator value is not positive — the
numeric difference of the extracted leading numbers when both first
filenames have one, the string comparison of the names otherwise. -/
def groupLe (a b : AdGroup) : Bool :=
  match extractNumber (firstFilename a), extractNumber (firstFilename b) with
  | some m, some n => m ≤ n
  | _, _ => lexLe (firstFilename a).data (firstFilename b).data

/-- sortedGroups of UnifiedPage: the snapshot's groups sorted by the
comparator.  JS sort with a consistent comparator is a stable sort, so
it is modelled by the stable mergeSort. -/
def sortedGroups (s : GroupedAssets) : List AdGroup :=
  s.groups.mergeSort groupLe

/-- minConfidence of GroupCard: Math.min over the four per-field
confidence scores group, product, angle and offer. -/
def minConfidence (g : AdGroup) : ℚ :=
  min (min (min g.confidence.group g.confidence.product) g.confidence.angle) g.confidence.offer

/-- lexLe never holds of a non-empty list against the empty list. -/
theorem lexLe_cons_nil (x : Char) (xs : List Char) : lexLe (x :: xs) [] = false := rfl

/-- lexLe on two non-empty lists forces the heads into order. -/
theorem lexLe_head_le {x y : Char} {xs ys : List Char}
    (h : lexLe (x :: xs) (y :: ys)) : x ≤ y := by
  simp only [lexLe] at h
  by_cases hxy : x < y
  · exact le_of_lt hxy
  · rw [if_neg hxy] at h
    by_cases hyx : y < x
    · rw [if_pos hyx] at h
      exact absurd h (by simp)
    · exact not_lt.mp hyx

/-- A strict head comparison decides lexLe. -/
theorem lexLe_of_head_lt {x y : Char} (h : x < y) (xs ys : List Char) :
    lexLe (x :: xs) (y :: ys) := by
  simp [lexLe, h]

/-- lexLe is total. -/
theorem lexLe_total : ∀ s t : List Char, lexLe s t || lexLe t s
  | [], _ => by simp [lexLe]
  | _ :: _, [] => by simp [lexLe]
  | x :: xs, y :: ys => by
    simp only [lexLe]
    rcases lt_trichotomy x y with h | h | h
    · simp [h]
    · subst h
      simpa [lt_irrefl] using lexLe_total xs ys
    · simp [h, lt_asymm h]

/-- lexLe is transitive. -/
theorem lexLe_trans : ∀ s t u : List Char, lexLe s t → lexLe t u → lexLe s u := by
  intro s
  induction s with
  | nil => intro t u h1 h2; rfl
  | cons x xs ih =>
    intro t u h1 h2
    cases t with
    | nil => simp [lexLe] at h1
    | cons y ys =>
      cases u with
      | nil => simp [lexLe] at h2
      | cons z zs =>
        simp only [lexLe] at h1 h2 ⊢
        by_cases hxy : x < y
        · by_cases hyz : y < z
          · simp [lt_trans hxy hyz]
          · rw [if_neg hyz] at h2
            by_cases hzy : z < y
            · rw [if_pos hzy] at h2
              exact absurd h2 (by simp)
            · have hyeq : y = z := le_antisymm (not_lt.mp hzy) (not_lt.mp hyz)
              subst hyeq
              simp [hxy]
        · rw [if_neg hxy] at h1
          by_cases hyx : y < x
          · rw [if_pos hyx] at h1
            exact absurd h1 (by simp)
          · have hxeq : x = y := le_antisymm (not_lt.mp hyx) (not_lt.mp hxy)
            subst hxeq
            rw [if_neg (lt_irrefl x)] at h1
            by_cases hxz : x < z
            · simp [hxz]
            · rw [if_neg hxz] at h2
              by_cases hzx : z < x
              · rw [if_pos hzx] at h2
                exact absurd h2 (by simp)
              · have hzeq : x = z := le_antisymm (not_lt.mp hzx) (not_lt.mp hxz)
                subst hzeq
                rw [if_neg (lt_irrefl x)] at h2
                simpa [lt_irrefl] using ih ys zs h1 h2

/-- A filename with an extracted number starts with a digit. -/
theorem extract_some_head {s : String} {n : Nat} (h : extractNumber s = some n) :
    ∃ c rest, s.data = c :: rest ∧ isDigitChar c := by
  unfold extractNumber leadingDigits at h
  cases hd : s.data with
  | nil => rw [hd] at h; simp at h
  | cons c rest =>
    rw [hd] at h
    by_cases hdig : isDigitChar c
    · exact ⟨c, rest, rfl, hdig⟩
    · simp [List.takeWhile_cons, hdig] at h

/-- A filename with no extracted number is empty or starts with a
non-digit. -/
theorem extract_none_head {s : String} (h : extractNumber s = none) :
    s.data = [] ∨ ∃ c rest, s.data = c :: rest ∧ ¬isDigitChar c := by
  unfold extractNumber leadingDigits at h
  cases hd : s.data with
  | nil => exact Or.inl rfl
  | cons c rest =>
    rw [hd] at h
    by_cases hdig : isDigitChar c
    · simp [List.takeWhile_cons, hdig] at h
    · exact Or.inr ⟨c, rest, rfl, hdig⟩

/-- A non-digit at or above a digit sits above the whole digit range. -/
theorem not_digit_high {b : Char} (h : ¬isDigitChar b = true) (h0 : ('0' : Char) ≤ b) :
    ('9' : Char) < b := by
  simp only [isDigitChar, Bool.decide_and, Bool.and_eq_true, decide_eq_true_eq, not_and] at h
  exact not_le.mp (h h0)

/-- A non-digit at or below a digit sits below the whole digit range. -/
theorem not_digit_low {b : Char} (h : ¬isDigitChar b = true) (h9 : b ≤ ('9' : Char)) :
    b < ('0' : Char) := by
  simp only [isDigitChar, Bool.decide_and, Bool.and_eq_true, decide_eq_true_eq, not_and] at h
  by_cases h0 : ('0' : Char) ≤ b
  · exact absurd h9 (h h0)
  · exact not_le.mp h0

/-- The digit bounds of a digit character. -/
theorem digit_bounds {c : Char} (h : isDigitChar c = true) :
    ('0' : Char) ≤ c ∧ c ≤ ('9' : Char) := by
  simpa [isDigitChar, Bool.decide_and, Bool.and_eq_true, decide_eq_true_eq] using h

/-- The comparator ordering is total. -/
theorem groupLe_total (a b : AdGroup) : groupLe a b || groupLe b a := by
  unfold groupLe
  cases ha : extractNumber (firstFilename a) <;> cases hb : extractNumber (firstFilename b)
  · exact lexLe_total _ _
  · exact lexLe_total _ _
  · exact lexLe_total _ _
  · rename_i m n
    rcases Nat.le_total m n with h | h <;> simp [h]

/-- The comparator ordering is transitive: numeric order chains with
numeric order, string order chains with string order, and the digit
boundary keeps the mixed cases consistent because every character
outside the digit range sits entirely below or entirely above it. -/
theorem groupLe_trans (a b c : AdGroup) : groupLe a b → groupLe b c → groupLe a c := by
  unfold groupLe
  cases ha : extractNumber (firstFilename a) <;> cases hb : extractNumber (firstFilename b) <;>
    cases hc : extractNumber (firstFilename c) <;> intro h1 h2
  · exact lexLe_trans _ _ _ h1 h2
  · exact lexLe_trans _ _ _ h1 h2
  · exact lexLe_trans _ _ _ h1 h2
  · -- a has no number, b and c do: the head of a is below the digit range
    obtain ⟨y, ys, hby, hydig⟩ := extract_some_head hb
    obtain ⟨z, zs, hcz, hzdig⟩ := extract_some_head hc
    have h1l : lexLe (firstFilename a).data (firstFilename b).data = true := h1
    show lexLe (firstFilename a).data (firstFilename c).data = true
    rcases extract_none_head ha with hanil | ⟨x, xs, hax, hxdig⟩
    · rw [hanil, hcz]
      rfl
    · rw [hax, hby] at h1l
      rw [hax, hcz]
      have hxy : x ≤ y := lexLe_head_le h1l
      have hx9 : x ≤ '9' := le_trans hxy (digit_bounds hydig).2
      have hx0 : x < '0' := not_digit_low hxdig hx9
      exact lexLe_of_head_lt (lt_of_lt_of_le hx0 (digit_bounds hzdig).1) xs zs
  · exact lexLe_trans _ _ _ h1 h2
  · -- a and c have numbers but b has none: impossible, since b's head
    -- would be forced into the digit range by the two string comparisons
    obtain ⟨x, xs, hax, hxdig⟩ := extract_some_head ha
    obtain ⟨z, zs, hcz, hzdig⟩ := extract_some_head hc
    have h1l : lexLe (firstFilename a).data (firstFilename b).data = true := h1
    have h2l : lexLe (firstFilename b).data (firstFilename c).data = true := h2
    rcases extract_none_head hb with hbnil | ⟨y, ys, hby, hydig⟩
    · rw [hax, hbnil, lexLe_cons_nil] at h1l
      exact absurd h1l (by simp)
    · rw [hax, hby] at h1l
      rw [hby, hcz] at h2l
      have hxy : x ≤ y := lexLe_head_le h1l
      have hyz : y ≤ z := lexLe_head_le h2l
      have hy0 : ('0' : Char) ≤ y := le_trans (digit_bounds hxdig).1 hxy
      have hy9 : y ≤ ('9' : Char) := le_trans hyz (digit_bounds hzdig).2
      exact absurd (by simp [isDigitChar, hy0, hy9]) hydig
  · -- a and b have numbers, c has none: the head of c is above the digit range
    obtain ⟨x, xs, hax, hxdig⟩ := extract_some_head ha
    obtain ⟨y, ys, hby, hydig⟩ := extract_some_head hb
    have h2l : lexLe (firstFilename b).data (firstFilename c).data = true := h2
    show lexLe (firstFilename a).data (firstFilename c).data = true
    rcases extract_none_head hc with hcnil | ⟨z, zs, hcz, hzdig⟩
    · rw [hby, hcnil, lexLe_cons_nil] at h2l
      exact absurd h2l (by simp)
    · rw [hby, hcz] at h2l
      rw [hax, hcz]
      have hyz : y ≤ z := lexLe_head_le h2l
      have hz0 : ('0' : Char) ≤ z := le_trans (digit_bounds hydig).1 hyz
      have hz9 : ('9' : Char) < z := not_digit_high hzdig hz0
      exact lexLe_of_head_lt (lt_of_le_of_lt (digit_bounds hxdig).2 hz9) xs zs
  · -- all three numeric
    rename_i m n p
    have h1n : decide (m ≤ n) = true := h1
    have h2n : decide (n ≤ p) = true := h2
    show decide (m ≤ p) = true
    simp only [decide_eq_true_eq] at h1n h2n ⊢
    exact le_trans h1n h2n

/-- A two-element mergeSort is decided by one comparator test. -/
theorem mergeSort_pair {α : Type} (le : α → α → Bool) (a b : α) :
    List.mergeSort [a, b] le = if le a b then [a, b] else [b, a] := by
  rw [List.mergeSort]
  simp [List.splitInTwo, List.splitAt, List.splitAt.go, List.mergeSort, List.merge]

/-- First sample group: first filename 002_story.jpg, minimum
confidence 0. -/
def c7GroupA : AdGroup :=
  { mkGroup "gA" .single [mkProcessed (mkAsset "fa" "002_story.jpg" .IMG) .story none] 2 with
    confidence := { group := 0, product := 1, angle := 1, offer := 1 } }

/-- Second sample group: first filename 001_feed.jpg, minimum
confidence 1. -/
def c7GroupB : AdGroup :=
  { mkGroup "gB" .single [mkProcessed (mkAsset "fb" "001_feed.jpg" .IMG) .feed none] 1 with
    confidence := { group := 1, product := 1, angle := 1, offer := 1 } }

/-- Sample snapshot holding the two groups. -/
def c7Snap : GroupedAssets := { groups := [c7GroupA, c7GroupB], ungrouped := [] }

/-- C7 counterexample: the review surface displays the group whose
first filename starts 001 before the group starting 002 even though
the former has the larger minimum confidence, so the displayed order
is not ascending by minimum confidence. -/
theorem c7_sort_counterexample :
    sortedGroups c7Snap = [c7GroupB, c7GroupA] ∧
      minConfidence c7GroupA < minConfidence c7GroupB := by
  constructor
  · show ([c7GroupA, c7GroupB].mergeSort groupLe) = [c7GroupB, c7GroupA]
    rw [mergeSort_pair groupLe c7GroupA c7GroupB]
    rw [show groupLe c7GroupA c7GroupB = false by decide]
    rfl
  · decide

/-- C7 amended: the review surface orders the displayed groups by the
first asset's original filename, not by confidence: ascending by the
extracted leading number when both adjacent groups have one, and by
the (locale-abstracted, here character-code) string comparison of the
names otherwise; every adjacent displayed pair satisfies the
comparator ordering. -/
theorem c7_sort_by_filename (s : GroupedAssets) :
    (sortedGroups s).Chain' (fun a b => groupLe a b = true) := by
  have hs := List.sorted_mergeSort
    (fun a b c h1 h2 => groupLe_trans a b c h1 h2)
    (fun a b => groupLe_total a b) s.groups
  exact List.Pairwise.chain' hs
